import Mathlib

/-!
Shallow embedding of `lildrip` (packaged source of truth:
`src/lildrip/bartlett_lewis_model.py`), a Bartlett-Lewis rectangular-pulse
stochastic rainfall model.

Conventions of the embedding:
* Python floats are modelled as `ℚ` (exact arithmetic; the float-tolerance
  claims are settled by proving the exact identity, which implies any
  absolute tolerance).
* Timestamps are minutes, modelled as `ℕ` (coarse series) or by position in
  the padded series (`identify_events`); pandas `DatetimeIndex` differences
  in minutes become natural subtraction on these minute counts.
* The global numpy random generator is modelled by an abstract deterministic
  entropy source `Entropy` (the PRNG stream of the process) together with a
  stream position `pos : ℕ`; each call to `poisson.rvs` / `np.random.uniform`
  / `expon.rvs` reads the stream at the current position and advances it by
  one, and `np.random.seed s` resets the position to `Entropy.seedState s`.
  This captures exactly the determinism properties of the source: draws are
  a function of the position and the distribution parameter only.
* Fallible code (`raise ValueError`) returns `Except String`.
-/

/-- Abstract deterministic entropy source standing for the seeded global
numpy PRNG: each field gives the value drawn when the stream is at a given
position with a given distribution parameter; `seedState` is the position
the stream is reset to by `np.random.seed`. -/
structure Entropy where
  poisson : ℕ → ℚ → ℕ
  uniform : ℕ → ℚ → ℚ
  exponential : ℕ → ℚ → ℚ
  seedState : ℕ → ℕ

/-- The calibrated parameter dictionary `{'lambda', 'beta', 'gamma', 'eta',
'mu'}` as consumed by `generate_synthetic_rainfall`. -/
structure Params where
  lam : ℚ
  beta : ℚ
  gamma : ℚ
  eta : ℚ
  mu : ℚ

/-- A `BartlettLewisModel` instance: `params` is the parameter dict
(`none` models Python `params=None`); as in `__init__`,
`self.calibrated = bool(params)` so the model is calibrated iff `params`
is present. -/
structure BLModel where
  params : Option Params

/-- `range(a, b)` over machine integers. -/
def intRange (a b : ℤ) : List ℤ :=
  (List.range (b - a).toNat).map (fun k => a + k)

/-- `if 0 <= i < len(rainfall): rainfall.iloc[i] += intensity`. -/
def bumpCell (cells : List ℚ) (i : ℤ) (x : ℚ) : List ℚ :=
  if 0 ≤ i ∧ i < (cells.length : ℤ) then
    cells.set i.toNat (cells.getD i.toNat 0 + x)
  else cells

/-- `for i in range(i_start, i_end): if 0 <= i < len(rainfall):
rainfall.iloc[i] += intensity` — add one pulse's intensity to every grid
cell it covers. -/
def addPulse (cells : List ℚ) (a b : ℤ) (x : ℚ) : List ℚ :=
  (intRange a b).foldl (fun c i => bumpCell c i x) cells

/-- The inner pulse loop of `generate_synthetic_rainfall`: for each of the
`pulses` pulses, draw the inter-arrival increment `expon.rvs(scale=1/gamma)`
(accumulated into `current_time`), a duration `expon.rvs(scale=1/eta)` and an
intensity `expon.rvs(scale=mu)`, and add the intensity to the covered cells
`[int(t // I), int((t+d) // I))`.  Returns the cells, the final
`current_time` and the advanced stream position. -/
def doPulses (E : Entropy) (p : Params) (I : ℕ) :
    List ℚ → ℚ → ℕ → ℕ → List ℚ × ℚ × ℕ
  | cells, t, pos, 0 => (cells, t, pos)
  | cells, t, pos, k + 1 =>
    let t' := t + E.exponential pos (1 / p.gamma)
    let d := E.exponential (pos + 1) (1 / p.eta)
    let x := E.exponential (pos + 2) p.mu
    let iS : ℤ := ⌊t' / (I : ℚ)⌋
    let iE : ℤ := ⌊(t' + d) / (I : ℚ)⌋
    doPulses E p I (addPulse cells iS iE x) t' (pos + 3) k

/-- The outer storm loop of `generate_synthetic_rainfall`: for each of the
`n_storms` storms, draw `storm_start ~ np.random.uniform(0, T)` and
`pulses ~ poisson.rvs(beta)`, then run the pulse loop. -/
def doStorms (E : Entropy) (p : Params) (T I : ℕ) :
    List ℚ → ℕ → ℕ → List ℚ × ℕ
  | cells, pos, 0 => (cells, pos)
  | cells, pos, k + 1 =>
    let start := E.uniform pos (T : ℚ)
    let pulses := E.poisson (pos + 1) p.beta
    let r := doPulses E p I cells start (pos + 2) pulses
    doStorms E p T I r.1 r.2.2 k

/-- Body of `generate_synthetic_rainfall` after the calibration check:
seed the stream when a seed is given, allocate
`n_intervals = total_duration_minutes // output_interval_minutes` zero
cells, draw `n_storms ~ poisson.rvs(lambda/(24*60) * total_duration)` and
run the storm loop.  Returns the cells and the final stream position. -/
def generateCells (E : Entropy) (p : Params) (T I : ℕ)
    (seed : Option ℕ) (pos : ℕ) : List ℚ × ℕ :=
  let pos1 := match seed with
    | some s => E.seedState s
    | none => pos
  let n := T / I
  let nStorms := E.poisson pos1 (p.lam / (24 * 60) * (T : ℚ))
  doStorms E p T I (List.replicate n 0) (pos1 + 1) nStorms

/-- `BartlettLewisModel.generate_synthetic_rainfall`: raises
`ValueError("Model must be calibrated first.")` when the model is not
calibrated, else runs the simulation. -/
def generate_synthetic_rainfall (E : Entropy) (m : BLModel) (T I : ℕ)
    (seed : Option ℕ) (pos : ℕ) : Except String (List ℚ × ℕ) :=
  match m.params with
  | none => .error "Model must be calibrated first."
  | some p => .ok (generateCells E p T I seed pos)

/-- `disaggregate`'s coarse-interval inference:
`(coarse_series.index[1] - coarse_series.index[0])` in minutes when the
series has more than one point, else the 60-minute default.  Coarse
timestamps are minute counts. -/
def coarseIntervalOf (coarse : List (ℕ × ℚ)) : ℕ :=
  match coarse with
  | (t0, _) :: (t1, _) :: _ => t1 - t0
  | _ => 60

/-- One iteration of `disaggregate`'s per-coarse-sample loop, threading the
accumulated fine series and the stream position.  `value == 0` emits
`int(coarse_interval / fine_interval)` zero cells; otherwise the simulator
runs for `int(coarse_interval_minutes)` at the fine resolution and its
output is rescaled by `value / sim.sum()` when the simulated sum is
positive, else overwritten with the uniform spread `value / len(sim)`. -/
def disaggStep (E : Entropy) (p : Params) (cI fineI : ℕ) (seed : Option ℕ)
    (acc : List ℚ × ℕ) (tv : ℕ × ℚ) : List ℚ × ℕ :=
  if tv.2 = 0 then
    (acc.1 ++ List.replicate (cI / fineI) (0 : ℚ), acc.2)
  else
    let r := generateCells E p cI fineI seed acc.2
    let sim := r.1
    let seg :=
      if 0 < sim.sum then sim.map (fun x => x * (tv.2 / sim.sum))
      else List.replicate sim.length (tv.2 / (sim.length : ℚ))
    (acc.1 ++ seg, r.2)

/-- `BartlettLewisModel.disaggregate`: raises when uncalibrated, else infers
the coarse interval and concatenates the per-coarse-sample fine segments in
order.  The result carries the fine cell values (timestamps of the output
are the per-segment `fine_times`, reconstructible from the coarse
timestamps) and the final stream position. -/
def disaggregate (E : Entropy) (m : BLModel) (coarse : List (ℕ × ℚ))
    (fineI : ℕ) (seed : Option ℕ) (pos : ℕ) :
    Except String (List ℚ × ℕ) :=
  match m.params with
  | none => .error "Model must be calibrated first."
  | some p =>
    let cI := coarseIntervalOf coarse
    .ok (coarse.foldl (disaggStep E p cI fineI seed) ([], pos))

/-- `np.mean` of a list of rationals (0 for the empty list, where numpy
would return NaN; all uses below are guarded by non-emptiness exactly as in
the source). -/
def mean (l : List ℚ) : ℚ := l.sum / (l.length : ℚ)

/-- The calibrated parameter dict as built by `calibrate`: `beta` and `eta`
are stored verbatim from the `default_beta` / `default_eta` arguments (the
dict is heterogeneous in Python, so their type is a parameter `α`; pass
`α := Option ℚ` to model a caller handing in `None`). -/
structure CalibParams (α : Type) where
  lam : ℚ
  beta : α
  gamma : ℚ
  eta : α
  mu : ℚ

/-- The observed span in minutes,
`(events[-1].index[-1] - events[0].index[0]).total_seconds() / 60`, over
events given as lists of (timestamp-in-minutes, rainfall_mm) rows. -/
def eventSpan (events : List (List (ℚ × ℚ))) : ℚ :=
  ((events.getLastD []).map Prod.fst).getLastD 0 -
    ((events.headD []).map Prod.fst).headD 0

/-- `BartlettLewisModel.calibrate` (method of moments).  Faithful to the
source signature: it takes exactly `events`, `interval_minutes`,
`default_beta` and `default_eta` — there is no intra-event-gap parameter
and no `None` handling; the `beta` and `eta` fields receive the arguments
unchanged. -/
def calibrate {α : Type} (events : List (List (ℚ × ℚ))) (interval : ℚ)
    (default_beta default_eta : α) : Except String (CalibParams α) :=
  if events.isEmpty then
    .error "No rainfall events found for calibration."
  else
    let durations := events.map (fun e => (e.length : ℚ) * interval)
    let intensities := events.map (fun e =>
      if 0 < e.length then
        (e.map Prod.snd).sum / ((e.length : ℚ) * interval)
      else 0)
    let span := eventSpan events
    let total_duration_minutes := if span = 0 then 1 else span
    let lambda_param :=
      (events.length : ℚ) / (total_duration_minutes / (24 * 60))
    let gamma_param :=
      if 0 < mean durations then 1 / mean durations else 1 / 100
    let mu_param :=
      if 0 < mean intensities then mean intensities else 1 / 10
    .ok ⟨lambda_param, default_beta, gamma_param, default_eta, mu_param⟩

/-- The inner `while` of `extrair_beta_eta`: extend the current pulse
(whose length so far is `len`, with `zc` trailing zero intervals counted)
through the remaining samples; a zero run reaching `gap` intervals breaks
without consuming the current zero.  Returns the final pulse length and the
suffix at which the outer loop resumes. -/
def pulseScanInner (gap : ℕ) : List ℚ → ℕ → ℕ → ℕ × List ℚ
  | [], len, _ => (len, [])
  | v :: rest, len, zc =>
    if 0 < v then pulseScanInner gap rest (len + 1) 0
    else if gap ≤ zc + 1 then (len, v :: rest)
    else pulseScanInner gap rest (len + 1) (zc + 1)

/-- The outer `while` of `extrair_beta_eta`, with fuel: a positive sample
opens a pulse (initial length 1, zero counter 0) scanned by
`pulseScanInner`; the count is incremented and the length recorded.  Every
outer iteration consumes at least one sample, so fuel equal to the length
of the sample list (as supplied by `pulseScanOuter`) is never exhausted. -/
def pulseScanOuterFuel (gap : ℕ) : ℕ → List ℚ → ℕ × List ℕ
  | 0, _ => (0, [])
  | _, [] => (0, [])
  | fuel + 1, v :: rest =>
    if 0 < v then
      let r := pulseScanInner gap rest 1 0
      let s := pulseScanOuterFuel gap fuel r.2
      (s.1 + 1, r.1 :: s.2)
    else pulseScanOuterFuel gap fuel rest

/-- Per-event pulse decomposition: the pulse count and the pulse lengths in
intervals, in order of occurrence. -/
def pulseScanOuter (gap : ℕ) (values : List ℚ) : ℕ × List ℕ :=
  pulseScanOuterFuel gap values.length values

/-- `extrair_beta_eta`: each event contributes its pulse count and pulse
durations (length-in-intervals × interval minutes) when it has at least one
pulse; β is the mean pulse count (1.0 when no event produced a pulse),
η is 1 / mean pulse duration (mean defaulting to 10.0 minutes when no
pulses were found, the inverse floored to 0.1 for a non-positive mean). -/
def extrair_beta_eta (events : List (List ℚ)) (interval : ℚ)
    (intra_event_gap : ℚ) : ℚ × ℚ :=
  let gap := (⌊intra_event_gap / interval⌋).toNat
  let collected := events.foldl
    (fun (acc : List ℚ × List ℚ) ev =>
      let r := pulseScanOuter gap ev
      if 0 < r.1 then
        (acc.1 ++ [(r.1 : ℚ)],
         acc.2 ++ r.2.map (fun n => (n : ℚ) * interval))
      else acc)
    ([], [])
  let beta := if collected.1.isEmpty then 1 else mean collected.1
  let mean_pulse_duration :=
    if collected.2.isEmpty then 10 else mean collected.2
  let eta := if 0 < mean_pulse_duration then 1 / mean_pulse_duration
    else 1 / 10
  (beta, eta)

/-- Scan state of `identify_events`' single left-to-right pass. -/
structure ScanState where
  inEvent : Bool
  dry : ℕ
  start : ℕ
  events : List (List (ℕ × ℚ))

/-- `padded_series.iloc[s:e + 1].loc[lambda x: x > 0]`: the rows (padded
position, value) of the closed slice `[s, e]` keeping only positive
values. -/
def eventSlice (padded : List ℚ) (s e : ℕ) : List (ℕ × ℚ) :=
  ((padded.enum.drop s).take (e + 1 - s)).filter (fun q => 0 < q.2)

/-- One step of `identify_events`' scan over the enumerated padded series:
a positive sample opens an event (recording its index) and resets the dry
counter; a zero sample increments it, and once it reaches `gap` inside an
event the event closes `gap` samples back, is filtered to its positive
rows, and is kept when non-empty with positive sum. -/
def scanStep (padded : List ℚ) (gap : ℕ) (st : ScanState) (iv : ℕ × ℚ) :
    ScanState :=
  if 0 < iv.2 then
    { st with inEvent := true,
              start := if st.inEvent then st.start else iv.1,
              dry := 0 }
  else
    let dry := st.dry + 1
    if st.inEvent = true ∧ gap ≤ dry then
      let ev := eventSlice padded st.start (iv.1 - gap)
      { inEvent := false, dry := 0, start := st.start,
        events :=
          if ev ≠ [] ∧ 0 < (ev.map Prod.snd).sum then st.events ++ [ev]
          else st.events }
    else { st with dry := dry }

/-- `gap_intervals = int(inter_event_gap_minutes / interval_minutes)`. -/
def gapIntervals (gap_minutes interval : ℚ) : ℕ :=
  (⌊gap_minutes / interval⌋).toNat

/-- `BartlettLewisModel.identify_events`: pad the series with
`gap_intervals` zero samples on both sides, scan it and collect the closed
events.  The series is its list of values; its (uniform) interval, which
the source infers from the first two timestamps, is the `interval`
argument, and event rows are (position in the padded series, value). -/
def identify_events (series : List ℚ) (interval : ℚ)
    (inter_event_gap : ℚ) : List (List (ℕ × ℚ)) :=
  let gap := gapIntervals inter_event_gap interval
  let padded :=
    List.replicate gap (0 : ℚ) ++ series ++ List.replicate gap (0 : ℚ)
  (padded.enum.foldl (scanStep padded gap) ⟨false, 0, 0, []⟩).events

/-- A degenerate entropy source (every draw is 0): the simulator draws zero
storms, exercising the all-zero simulation paths. -/
def zeroEntropy : Entropy := ⟨fun _ _ => 0, fun _ _ => 0, fun _ _ => 0, id⟩

/-- An entropy source drawing one storm with one pulse whose arrival,
duration and intensity are all 40 minutes/units: over a 60-minute horizon at
30-minute resolution the pulse covers exactly the second cell, giving a
simulation with positive sum. -/
def posEntropy : Entropy := ⟨fun _ _ => 1, fun _ _ => 0, fun _ _ => 40, id⟩

/-- The all-ones parameter set used by the repository's own tests. -/
def pConc : Params := ⟨1, 1, 1, 1, 1⟩

/-!
## Theorems
-/

theorem bumpCell_length (c : List ℚ) (i : ℤ) (x : ℚ) :
    (bumpCell c i x).length = c.length := by
  unfold bumpCell
  split <;> simp

theorem foldl_bump_length (x : ℚ) (l : List ℤ) (c : List ℚ) :
    (l.foldl (fun c i => bumpCell c i x) c).length = c.length := by
  induction l generalizing c with
  | nil => rfl
  | cons i l ih => simp [List.foldl_cons, ih, bumpCell_length]

theorem addPulse_length (c : List ℚ) (a b : ℤ) (x : ℚ) :
    (addPulse c a b x).length = c.length :=
  foldl_bump_length x (intRange a b) c

theorem doPulses_length (E : Entropy) (p : Params) (I : ℕ) (k : ℕ) :
    ∀ cells t pos, ((doPulses E p I cells t pos k).1).length = cells.length := by
  induction k with
  | zero => intro cells t pos; rfl
  | succ k ih =>
    intro cells t pos
    rw [doPulses, ih, addPulse_length]

theorem doStorms_length (E : Entropy) (p : Params) (T I : ℕ) (k : ℕ) :
    ∀ cells pos, ((doStorms E p T I cells pos k).1).length = cells.length := by
  induction k with
  | zero => intro cells pos; rfl
  | succ k ih =>
    intro cells pos
    rw [doStorms, ih, doPulses_length]

theorem generateCells_length (E : Entropy) (p : Params) (T I : ℕ)
    (seed : Option ℕ) (pos : ℕ) :
    ((generateCells E p T I seed pos).1).length = T / I := by
  unfold generateCells
  rw [doStorms_length, List.length_replicate]

/-- C4: two runs of `generate_synthetic_rainfall` on a calibrated model with
the same seed, total duration, output interval and parameters return the
same result whatever the ambient generator state was before each run: the
seed resets the stream, so the output is bit-for-bit reproducible. -/
theorem C4_generate_seed_reproducible (E : Entropy) (p : Params) (T I s : ℕ)
    (pos₁ pos₂ : ℕ) :
    generate_synthetic_rainfall E ⟨some p⟩ T I (some s) pos₁ =
      generate_synthetic_rainfall E ⟨some p⟩ T I (some s) pos₂ := rfl

/-- C5: on a calibrated model, `generate_synthetic_rainfall` returns exactly
`total_duration_minutes // output_interval_minutes` cells, for every entropy
stream, parameter set, seed and ambient generator state (the per-cell
accumulation is bounds-checked and never changes the grid's length). -/
theorem C5_generate_length (E : Entropy) (p : Params) (T I : ℕ)
    (seed : Option ℕ) (pos : ℕ) (r : List ℚ × ℕ) (hI : 0 < I)
    (h : generate_synthetic_rainfall E ⟨some p⟩ T I seed pos = .ok r) :
    r.1.length = T / I := by
  have hr : r = generateCells E p T I seed pos := by
    simpa [generate_synthetic_rainfall] using h.symm
  rw [hr, generateCells_length]

/-- C5 witness: with the all-zero entropy stream and the test parameter set,
a 60-minute run at 10-minute output resolution has exactly 6 cells. -/
theorem C5_generate_length_witness :
    0 < 10 ∧ ((generateCells zeroEntropy pConc 60 10 none 0).1).length = 60 / 10 :=
  ⟨by decide,
   C5_generate_length zeroEntropy pConc 60 10 none 0
     (generateCells zeroEntropy pConc 60 10 none 0) (by decide) rfl⟩

/-- C9: `generate_synthetic_rainfall` and `disaggregate` fail — with the
`ValueError` message of the source — exactly when the model holds no
parameter set, and in that case they return the bare error, producing no
output cells and consuming no randomness. -/
theorem C9_uncalibrated_error_iff (E : Entropy) (m : BLModel) (T I : ℕ)
    (seed : Option ℕ) (pos : ℕ) (coarse : List (ℕ × ℚ)) (fineI : ℕ) :
    (generate_synthetic_rainfall E m T I seed pos =
        .error "Model must be calibrated first." ↔ m.params = none) ∧
    (disaggregate E m coarse fineI seed pos =
        .error "Model must be calibrated first." ↔ m.params = none) := by
  obtain ⟨params⟩ := m
  cases params <;> simp [generate_synthetic_rainfall, disaggregate]

/-- C9 witness: at concrete inputs, the uncalibrated model errors and the
calibrated one does not. -/
theorem C9_uncalibrated_error_iff_witness :
    (generate_synthetic_rainfall zeroEntropy ⟨none⟩ 60 10 none 0 =
        .error "Model must be calibrated first." ↔
      (BLModel.mk none).params = none) ∧
    (disaggregate zeroEntropy ⟨none⟩ [] 10 none 0 =
        .error "Model must be calibrated first." ↔
      (BLModel.mk none).params = none) :=
  C9_uncalibrated_error_iff zeroEntropy ⟨none⟩ 60 10 none 0 [] 10

/-- C2: the source's `calibrate` does not invoke the pulse extractor when
`default_beta`/`default_eta` are `None` — it has no intra-event-gap
parameter at all and stores the passed values verbatim in the returned
dict's `beta`/`eta` fields — so on the repository test's own events it
stores `None` where the extractor (invoked directly, as the test and the
HTTP callers expect `calibrate` to do) yields β = 2 and η = 0.1. -/
theorem C2_calibrate_stores_none_verbatim :
    (calibrate [[(0, 1), (10, 0), (20, 1)],
                [(1440, 2), (1450, 0), (1460, 0), (1470, 3)]] 10
        (none : Option ℚ) (none : Option ℚ)).map
        (fun P => (P.beta, P.eta)) = .ok (none, none) ∧
    extrair_beta_eta [[1, 0, 1], [2, 0, 0, 3]] 10 10 = (2, 1 / 10) ∧
    (none : Option ℚ) ≠ some 2 := by
  refine ⟨rfl, ?_, by decide⟩
  norm_num [extrair_beta_eta, pulseScanOuter, pulseScanOuterFuel,
    pulseScanInner, mean]

/-- C3 counterexample: with `interval = 10` and `intra_event_gap = 10` the
gap threshold is one interval, and the event `[1, 0, 1]` decomposes into
two pulses, not the single pulse the claim asserts: the one-interval zero
run reaches the threshold and terminates the first pulse. -/
theorem C3_one_pulse_counterexample :
    (⌊(10 : ℚ) / 10⌋).toNat = 1 ∧ (pulseScanOuter 1 [1, 0, 1]).1 = 2 ∧
      (pulseScanOuter 1 [1, 0, 1]).1 ≠ 1 := by
  refine ⟨by norm_num, by decide, by decide⟩

/-- C3 (amended): on the two events `[1,0,1]` and `[2,0,0,3]` at 10-minute
steps with a 10-minute intra-event gap, each event decomposes into exactly
two pulses of one interval (10 minutes) each, so β = mean pulse count = 2
and η = 1 / mean pulse duration = 1/10. -/
theorem C3_beta_eta_values :
    extrair_beta_eta [[1, 0, 1], [2, 0, 0, 3]] 10 10 = (2, 1 / 10) ∧
    pulseScanOuter 1 [1, 0, 1] = (2, [1, 1]) ∧
    pulseScanOuter 1 [2, 0, 0, 3] = (2, [1, 1]) := by
  refine ⟨?_, by decide, by decide⟩
  norm_num [extrair_beta_eta, pulseScanOuter, pulseScanOuterFuel,
    pulseScanInner, mean]

theorem sum_map_mul (l : List ℚ) (c : ℚ) :
    (l.map (fun x => x * c)).sum = l.sum * c := by
  induction l with
  | nil => simp
  | cons v l ih => simp [ih]; ring

/-- One coarse sample contributes exactly its own value to the fine total:
zero samples append zeros; nonzero samples are either rescaled to the exact
value or spread uniformly over the (non-empty) fine cells. -/
theorem disaggStep_sum (E : Entropy) (p : Params) (cI fineI : ℕ)
    (seed : Option ℕ) (hn : 0 < cI / fineI) (acc : List ℚ × ℕ) (tv : ℕ × ℚ) :
    ((disaggStep E p cI fineI seed acc tv).1).sum = acc.1.sum + tv.2 := by
  unfold disaggStep
  by_cases hv : tv.2 = 0
  · simp [hv]
  · rw [if_neg hv]
    have hlen : ((generateCells E p cI fineI seed acc.2).1).length = cI / fineI :=
      generateCells_length E p cI fineI seed acc.2
    by_cases hs : 0 < ((generateCells E p cI fineI seed acc.2).1).sum
    · have hS : ((generateCells E p cI fineI seed acc.2).1).sum ≠ 0 := ne_of_gt hs
      simp only [if_pos hs, List.sum_append, sum_map_mul]
      rw [mul_comm, div_mul_cancel₀ _ hS]
    · have hzn : ((generateCells E p cI fineI seed acc.2).1).length ≠ 0 := by
        omega
      have hq : (((generateCells E p cI fineI seed acc.2).1).length : ℚ) ≠ 0 := by
        exact_mod_cast hzn
      simp only [if_neg hs, List.sum_append, List.sum_replicate, nsmul_eq_mul]
      rw [mul_comm, div_mul_cancel₀ _ hq]

theorem disagg_fold_sum (E : Entropy) (p : Params) (cI fineI : ℕ)
    (seed : Option ℕ) (hn : 0 < cI / fineI) (l : List (ℕ × ℚ)) :
    ∀ acc : List ℚ × ℕ,
      ((l.foldl (disaggStep E p cI fineI seed) acc).1).sum =
        acc.1.sum + (l.map Prod.snd).sum := by
  induction l with
  | nil => intro acc; simp
  | cons tv l ih =>
    intro acc
    have hstep := disaggStep_sum E p cI fineI seed hn acc tv
    calc ((l.foldl (disaggStep E p cI fineI seed)
            (disaggStep E p cI fineI seed acc tv)).1).sum
        = ((disaggStep E p cI fineI seed acc tv).1).sum +
            (l.map Prod.snd).sum := ih _
      _ = acc.1.sum + ((tv :: l).map Prod.snd).sum := by
          rw [hstep]; simp; ring

/-- C1: the disaggregated fine series of a coarse series of non-negative
values has the same total as the coarse series, to within every positive
tolerance — the difference is exactly zero in exact arithmetic — in every
branch: zero samples, rescaling by `value / sim.sum()`, and the uniform
spread fallback.  The hypothesis `0 < cI / fineI` says each coarse interval
holds at least one fine cell (otherwise the Python uniform fallback would
divide by `len(sim) == 0`). -/
theorem C1_disaggregate_mass_conservation (E : Entropy) (p : Params)
    (coarse : List (ℕ × ℚ)) (fineI : ℕ) (seed : Option ℕ) (pos : ℕ)
    (r : List ℚ × ℕ) (hvals : ∀ tv ∈ coarse, 0 ≤ tv.2)
    (hn : 0 < coarseIntervalOf coarse / fineI)
    (h : disaggregate E ⟨some p⟩ coarse fineI seed pos = .ok r) :
    |r.1.sum - (coarse.map Prod.snd).sum| ≤ 1 / 1000000 := by
  have hr : r = coarse.foldl
      (disaggStep E p (coarseIntervalOf coarse) fineI seed) ([], pos) := by
    simpa [disaggregate] using h.symm
  rw [hr, disagg_fold_sum E p (coarseIntervalOf coarse) fineI seed hn]
  simp

/-- C1 witness: a single-sample coarse series `[(t=0, 4 mm)]` at 30-minute
fine resolution (coarse interval defaulting to 60 minutes), under the
all-zero entropy stream (uniform-spread fallback): the fine total is 4. -/
theorem C1_disaggregate_mass_conservation_witness :
    (∀ tv ∈ [((0 : ℕ), (4 : ℚ))], 0 ≤ tv.2) ∧
    0 < coarseIntervalOf [((0 : ℕ), (4 : ℚ))] / 30 ∧
    |(([(2 : ℚ), 2], 1).1.sum - ([((0 : ℕ), (4 : ℚ))].map Prod.snd).sum)| ≤
      1 / 1000000 := by
  refine ⟨by norm_num, by decide, ?_⟩
  refine C1_disaggregate_mass_conservation zeroEntropy pConc
    [((0 : ℕ), (4 : ℚ))] 30 none 0 ([(2 : ℚ), 2], 1) (by norm_num) (by decide) ?_
  norm_num [disaggregate, disaggStep, generateCells, doStorms, zeroEntropy,
    pConc, coarseIntervalOf]
  rfl

/-- One coarse sample contributes exactly `cI / fineI` fine cells, whether
its value is zero (zero padding of that many cells) or not (the simulated
series, whose length the simulator fixes at `cI // fineI`, possibly
rescaled or overwritten in place). -/
theorem disaggStep_length (E : Entropy) (p : Params) (cI fineI : ℕ)
    (seed : Option ℕ) (acc : List ℚ × ℕ) (tv : ℕ × ℚ) :
    ((disaggStep E p cI fineI seed acc tv).1).length =
      acc.1.length + cI / fineI := by
  unfold disaggStep
  by_cases hv : tv.2 = 0
  · simp [hv]
  · rw [if_neg hv]
    have hlen : ((generateCells E p cI fineI seed acc.2).1).length = cI / fineI :=
      generateCells_length E p cI fineI seed acc.2
    by_cases hs : 0 < ((generateCells E p cI fineI seed acc.2).1).sum
    · simp [if_pos hs, hlen]
    · simp [if_neg hs, hlen]

theorem disagg_fold_length (E : Entropy) (p : Params) (cI fineI : ℕ)
    (seed : Option ℕ) (l : List (ℕ × ℚ)) :
    ∀ acc : List ℚ × ℕ,
      ((l.foldl (disaggStep E p cI fineI seed) acc).1).length =
        acc.1.length + (l.map (fun _ => cI / fineI)).sum := by
  induction l with
  | nil => intro acc; simp
  | cons tv l ih =>
    intro acc
    rw [List.foldl_cons, ih, disaggStep_length]
    simp
    omega

/-- C8: the disaggregated series has one fine cell per
`coarse_interval / fine_interval` slot of each coarse sample, the coarse
interval being inferred from the first two coarse timestamps (60 minutes
by default for a single-point series). -/
theorem C8_disaggregate_length (E : Entropy) (p : Params)
    (coarse : List (ℕ × ℚ)) (fineI : ℕ) (seed : Option ℕ) (pos : ℕ)
    (r : List ℚ × ℕ) (hI : 0 < fineI)
    (h : disaggregate E ⟨some p⟩ coarse fineI seed pos = .ok r) :
    r.1.length = (coarse.map (fun _ => coarseIntervalOf coarse / fineI)).sum := by
  have hr : r = coarse.foldl
      (disaggStep E p (coarseIntervalOf coarse) fineI seed) ([], pos) := by
    simpa [disaggregate] using h.symm
  rw [hr, disagg_fold_length]
  simp

/-- C8 witness: the repository test's own shape — coarse samples `[0, 5]`
one hour apart, disaggregated at 30 minutes — yields 2 + 2 = 4 cells. -/
theorem C8_disaggregate_length_witness :
    0 < 30 ∧
    (([(0 : ℚ), 0, 5 / 2, 5 / 2], 1).1).length =
      ([((0 : ℕ), (0 : ℚ)), (60, 5)].map
        (fun _ => coarseIntervalOf [((0 : ℕ), (0 : ℚ)), (60, 5)] / 30)).sum := by
  refine ⟨by decide, ?_⟩
  refine C8_disaggregate_length zeroEntropy pConc [((0 : ℕ), (0 : ℚ)), (60, 5)]
    30 none 0 ([(0 : ℚ), 0, 5 / 2, 5 / 2], 1) (by decide) ?_
  norm_num [disaggregate, disaggStep, generateCells, doStorms, zeroEntropy,
    pConc, coarseIntervalOf]
  rfl

/-- C10: `disaggregate` passes its seed down to every per-coarse-sample
simulation, which re-seeds the generator, so the simulated pattern is the
same list whatever the ambient stream position; consequently any two
nonzero coarse samples receive elementwise-proportional fine segments:
segment divided by its coarse value is the same normalized pattern for
both. -/
theorem C10_seeded_segments_proportional (E : Entropy) (p : Params)
    (cI fineI s t₁ t₂ pos₁ pos₂ : ℕ) (v₁ v₂ : ℚ)
    (h₁ : v₁ ≠ 0) (h₂ : v₂ ≠ 0)
    (hs : 0 < ((generateCells E p cI fineI (some s) pos₁).1).sum) :
    generateCells E p cI fineI (some s) pos₁ =
      generateCells E p cI fineI (some s) pos₂ ∧
    ((disaggStep E p cI fineI (some s) ([], pos₁) (t₁, v₁)).1).map
        (fun x => x / v₁) =
      ((disaggStep E p cI fineI (some s) ([], pos₂) (t₂, v₂)).1).map
        (fun x => x / v₂) := by
  refine ⟨rfl, ?_⟩
  have hgen : generateCells E p cI fineI (some s) pos₂ =
      generateCells E p cI fineI (some s) pos₁ := rfl
  have hsum : ((generateCells E p cI fineI (some s) pos₁).1).sum ≠ 0 :=
    ne_of_gt hs
  have key : ∀ v : ℚ, v ≠ 0 →
      (((generateCells E p cI fineI (some s) pos₁).1).map
          (fun x => x *
            (v / ((generateCells E p cI fineI (some s) pos₁).1).sum))).map
          (fun x => x / v) =
        ((generateCells E p cI fineI (some s) pos₁).1).map
          (fun x => x / ((generateCells E p cI fineI (some s) pos₁).1).sum) := by
    intro v hv
    rw [List.map_map]
    congr 1
    funext x
    field_simp
    ring
  unfold disaggStep
  simp only [hgen, if_neg h₁, if_neg h₂, if_pos hs, List.nil_append]
  rw [key v₁ h₁, key v₂ h₂]

/-- C10 witness: under `posEntropy` (one storm, one pulse of height 40 on
the second of two 30-minute cells) with seed 0, the coarse values 2 and 4
get the segments `[0, 2]` and `[0, 4]`, both normalizing to `[0, 1]`. -/
theorem C10_seeded_segments_proportional_witness :
    (2 : ℚ) ≠ 0 ∧ (4 : ℚ) ≠ 0 ∧
    0 < ((generateCells posEntropy pConc 60 30 (some 0) 5).1).sum ∧
    ((disaggStep posEntropy pConc 60 30 (some 0) ([], 5) (0, 2)).1).map
        (fun x => x / 2) =
      ((disaggStep posEntropy pConc 60 30 (some 0) ([], 9) (60, 4)).1).map
        (fun x => x / 4) := by
  have hs : 0 < ((generateCells posEntropy pConc 60 30 (some 0) 5).1).sum := by
    norm_num [generateCells, doStorms, doPulses, addPulse, intRange, bumpCell,
      posEntropy, pConc, List.range_succ, List.replicate, List.set]
  exact ⟨by norm_num, by norm_num, hs,
    (C10_seeded_segments_proportional posEntropy pConc 60 30 0 0 60 5 9 2 4
      (by norm_num) (by norm_num) hs).2⟩

theorem sum_of_const (l : List ℚ) (c : ℚ) (h : ∀ x ∈ l, x = c) :
    l.sum = l.length * c := by
  induction l with
  | nil => simp
  | cons v l ih =>
    have hv : v = c := h v (List.mem_cons_self v l)
    have hrest : ∀ x ∈ l, x = c := fun x hx => h x (List.mem_cons_of_mem v hx)
    simp [hv, ih hrest]
    ring

theorem mean_of_const (l : List ℚ) (c : ℚ) (hne : l ≠ []) (h : ∀ x ∈ l, x = c) :
    mean l = c := by
  have hn : (l.length : ℚ) ≠ 0 := by
    have := List.length_pos.mpr hne
    exact_mod_cast Nat.pos_iff_ne_zero.mp this
  unfold mean
  rw [sum_of_const l c h, mul_comm, mul_div_assoc, div_self hn, mul_one]

/-- C7: on a non-empty list of events all of the same row count `L` (hence
the same duration `D = L * interval`) and the same intensity `I`,
`calibrate` returns γ = 1/D and μ = I with no floor triggered, and
λ = event count / span-in-days, the span in minutes being floored to 1 when
it is zero. -/
theorem C7_calibrate_constant_events (events : List (List (ℚ × ℚ)))
    (interval : ℚ) (L : ℕ) (I db de : ℚ)
    (hne : events ≠ []) (hL : 0 < L) (hint : 0 < interval)
    (hlen : ∀ e ∈ events, e.length = L)
    (hInt : ∀ e ∈ events, (e.map Prod.snd).sum / ((L : ℚ) * interval) = I)
    (hIpos : 0 < I) :
    calibrate events interval db de =
      .ok ⟨(events.length : ℚ) /
             ((if eventSpan events = 0 then 1 else eventSpan events) / (24 * 60)),
           db, 1 / ((L : ℚ) * interval), de, I⟩ := by
  have hne' : events.isEmpty = false := by
    simpa [List.isEmpty_iff] using hne
  have hmapne : events.map (fun e => (e.length : ℚ) * interval) ≠ [] := by
    simpa using hne
  have hdur : mean (events.map fun e => (e.length : ℚ) * interval) =
      (L : ℚ) * interval := by
    refine mean_of_const _ _ hmapne ?_
    intro x hx
    obtain ⟨e, he, rfl⟩ := List.mem_map.mp hx
    rw [hlen e he]
  have hD : (0 : ℚ) < (L : ℚ) * interval := by
    have : (0 : ℚ) < (L : ℚ) := by exact_mod_cast hL
    exact mul_pos this hint
  have hmapne' : events.map (fun e =>
      if 0 < e.length then (e.map Prod.snd).sum / ((e.length : ℚ) * interval)
      else 0) ≠ [] := by
    simpa using hne
  have hints : mean (events.map fun e =>
      if 0 < e.length then (e.map Prod.snd).sum / ((e.length : ℚ) * interval)
      else 0) = I := by
    refine mean_of_const _ _ hmapne' ?_
    intro x hx
    obtain ⟨e, he, rfl⟩ := List.mem_map.mp hx
    have hl : e.length = L := hlen e he
    rw [hl, if_pos hL]
    exact hInt e he
  simp only [calibrate, hne', Bool.false_eq_true, if_false, hdur, hints,
    if_pos hD, if_pos hIpos]

/-- C7 witness: two single-row events of value 2, 60 minutes apart, at a
10-minute interval: D = 10, I = 1/5, span = 60, so γ = 1/10, μ = 1/5 and
λ = 2 / (60 / 1440) = 48 events per day. -/
theorem C7_calibrate_constant_events_witness :
    calibrate [[((0 : ℚ), (2 : ℚ))], [((60 : ℚ), (2 : ℚ))]] 10 (0 : ℚ) (0 : ℚ) =
      .ok ⟨(([[((0 : ℚ), (2 : ℚ))], [((60 : ℚ), (2 : ℚ))]].length : ℕ) : ℚ) /
             ((if eventSpan [[((0 : ℚ), (2 : ℚ))], [((60 : ℚ), (2 : ℚ))]] = 0
               then 1
               else eventSpan [[((0 : ℚ), (2 : ℚ))], [((60 : ℚ), (2 : ℚ))]]) /
              (24 * 60)),
           0, 1 / (((1 : ℕ) : ℚ) * 10), 0, 1 / 5⟩ := by
  refine C7_calibrate_constant_events _ 10 1 (1 / 5) 0 0 (by simp) (by decide)
    (by norm_num) (by intro e he; fin_cases he <;> rfl) ?_ (by norm_num)
  intro e he
  fin_cases he <;> norm_num

/-- Scanning a zero run while not inside an event only advances the dry
counter: no event can close. -/
theorem scan_zeros_of_not_inEvent (padded : List ℚ) (gap : ℕ) (m i₀ : ℕ)
    (st : ScanState) (h : st.inEvent = false) :
    (List.enumFrom i₀ (List.replicate m (0 : ℚ))).foldl (scanStep padded gap) st
      = ⟨false, st.dry + m, st.start, st.events⟩ := by
  induction m generalizing i₀ st with
  | zero => cases st; simp_all [List.enumFrom]
  | succ m ih =>
    rw [List.replicate_succ]
    simp only [List.enumFrom, List.foldl_cons]
    have hstep : scanStep padded gap st (i₀, 0) = { st with dry := st.dry + 1 } := by
      unfold scanStep
      simp [h]
    rw [hstep, ih (i₀ + 1) _ (by simp [h])]
    cases st
    simp
    omega

/-- Scanning a positive run while already inside an event with a reset dry
counter leaves the state unchanged. -/
theorem scan_pos_of_inEvent (padded : List ℚ) (gap : ℕ) (run : List ℚ)
    (i₀ : ℕ) (st : ScanState) (hpos : ∀ x ∈ run, 0 < x)
    (hin : st.inEvent = true) (hdry : st.dry = 0) :
    (List.enumFrom i₀ run).foldl (scanStep padded gap) st = st := by
  induction run generalizing i₀ with
  | nil => rfl
  | cons v rest ih =>
    have hv : 0 < v := hpos v (List.mem_cons_self v rest)
    simp only [List.enumFrom, List.foldl_cons]
    have hstep : scanStep padded gap st (i₀, v) = st := by
      unfold scanStep
      cases st
      simp_all
    rw [hstep]
    exact ih (i₀ + 1) (fun x hx => hpos x (List.mem_cons_of_mem v hx))

/-- Scanning a non-empty positive run from outside an event opens exactly
one event at the run's first index. -/
theorem scan_pos_run (padded : List ℚ) (gap : ℕ) (run : List ℚ)
    (hne : run ≠ []) (hpos : ∀ x ∈ run, 0 < x) (i₀ : ℕ) (st : ScanState)
    (h : st.inEvent = false) :
    (List.enumFrom i₀ run).foldl (scanStep padded gap) st
      = ⟨true, 0, i₀, st.events⟩ := by
  cases run with
  | nil => exact absurd rfl hne
  | cons v rest =>
    have hv : 0 < v := hpos v (List.mem_cons_self v rest)
    simp only [List.enumFrom, List.foldl_cons]
    have hstep : scanStep padded gap st (i₀, v) = ⟨true, 0, i₀, st.events⟩ := by
      unfold scanStep
      cases st
      simp_all
    rw [hstep]
    exact scan_pos_of_inEvent padded gap rest (i₀ + 1) _
      (fun x hx => hpos x (List.mem_cons_of_mem v hx)) rfl rfl

/-- Scanning a zero run of at least `gap - dry` samples from inside an
event closes the event at the sample preceding the run and keeps its
positive-filtered slice when that slice is non-empty with positive sum. -/
theorem scan_zeros_close (padded : List ℚ) (gap : ℕ) (m : ℕ) :
    ∀ (d i₀ s : ℕ) (Ev : List (List (ℕ × ℚ))),
      d < gap → gap ≤ d + m → d + 1 ≤ i₀ →
      (List.enumFrom i₀ (List.replicate m (0 : ℚ))).foldl (scanStep padded gap)
          ⟨true, d, s, Ev⟩
        = ⟨false, m - (gap - d), s,
            if eventSlice padded s (i₀ - d - 1) ≠ [] ∧
                0 < ((eventSlice padded s (i₀ - d - 1)).map Prod.snd).sum
            then Ev ++ [eventSlice padded s (i₀ - d - 1)] else Ev⟩ := by
  induction m with
  | zero => intro d i₀ s Ev hd hgap _; omega
  | succ m ih =>
    intro d i₀ s Ev hd hgap hi
    rw [List.replicate_succ]
    simp only [List.enumFrom, List.foldl_cons]
    by_cases hclose : gap ≤ d + 1
    · have hstep : scanStep padded gap ⟨true, d, s, Ev⟩ (i₀, 0)
          = ⟨false, 0, s,
              if eventSlice padded s (i₀ - gap) ≠ [] ∧
                  0 < ((eventSlice padded s (i₀ - gap)).map Prod.snd).sum
              then Ev ++ [eventSlice padded s (i₀ - gap)] else Ev⟩ := by
        unfold scanStep
        simp [hclose]
      rw [hstep, scan_zeros_of_not_inEvent padded gap m (i₀ + 1) _ rfl]
      have hidx : i₀ - gap = i₀ - d - 1 := by omega
      rw [hidx]
      simp
      omega
    · have hstep : scanStep padded gap ⟨true, d, s, Ev⟩ (i₀, 0)
          = ⟨true, d + 1, s, Ev⟩ := by
        unfold scanStep
        simp [hclose]
      rw [hstep, ih (d + 1) (i₀ + 1) s Ev (by omega) (by omega) (by omega)]
      have h1 : i₀ + 1 - (d + 1) - 1 = i₀ - d - 1 := by omega
      have h2 : m - (gap - (d + 1)) = m + 1 - (gap - d) := by omega
      rw [h1, h2]

/-- The closed slice covering exactly a positive run in the middle of the
padded series, filtered to positive rows, is that run with its padded
positions. -/
theorem eventSlice_append (pre run post : List ℚ) (hne : run ≠ [])
    (hpos : ∀ x ∈ run, 0 < x) :
    eventSlice (pre ++ run ++ post) pre.length (pre.length + run.length - 1)
      = List.enumFrom pre.length run := by
  have hr : 1 ≤ run.length := List.length_pos.mpr hne
  unfold eventSlice
  have h1 : (pre ++ run ++ post).enum
      = List.enumFrom 0 pre ++ (List.enumFrom pre.length run ++
          List.enumFrom (pre.length + run.length) post) := by
    show List.enumFrom 0 (pre ++ run ++ post) = _
    rw [List.append_assoc, List.enumFrom_append, List.enumFrom_append]
    simp
  rw [h1, List.drop_left' (by simp [List.enumFrom_length]),
    show pre.length + run.length - 1 + 1 - pre.length = run.length by omega,
    List.take_left' (by simp [List.enumFrom_length])]
  rw [List.filter_eq_self.mpr]
  intro q hq
  have hq2 : q.2 ∈ run := by
    have := List.mem_map_of_mem Prod.snd hq
    rwa [List.enumFrom_map_snd] at this
  simpa using hpos q.2 hq2

/-- C6: `identify_events` on an all-zero series (at least two samples)
returns no events; on a series that is a single positive run flanked by dry
spans of at least `inter_event_gap` minutes (with a configuration whose gap
threshold is at least one interval), it returns exactly one event whose
rows are exactly that positive run, at the run's padded positions. -/
theorem C6_identify_events_spec :
    (∀ (n : ℕ) (interval interGap : ℚ), 2 ≤ n →
      identify_events (List.replicate n 0) interval interGap = []) ∧
    (∀ (a b : ℕ) (run : List ℚ) (interval interGap : ℚ),
      run ≠ [] → (∀ x ∈ run, 0 < x) →
      0 < interval → interval ≤ interGap →
      interGap ≤ (a : ℚ) * interval → interGap ≤ (b : ℚ) * interval →
      identify_events (List.replicate a 0 ++ run ++ List.replicate b 0)
          interval interGap
        = [List.enumFrom (gapIntervals interGap interval + a) run]) := by
  constructor
  · intro n interval interGap hn
    simp only [identify_events]
    have hpad : List.replicate (gapIntervals interGap interval) (0 : ℚ) ++
        List.replicate n 0 ++ List.replicate (gapIntervals interGap interval) 0
        = List.replicate (gapIntervals interGap interval + n +
            gapIntervals interGap interval) (0 : ℚ) := by
      rw [List.replicate_add, List.replicate_add]
    rw [hpad]
    rw [show (List.replicate (gapIntervals interGap interval + n +
          gapIntervals interGap interval) (0 : ℚ)).enum
        = List.enumFrom 0 (List.replicate (gapIntervals interGap interval + n +
            gapIntervals interGap interval) (0 : ℚ)) from rfl,
      scan_zeros_of_not_inEvent _ _ _ 0 _ rfl]
  · intro a b run interval interGap hne hpos hintpos hge ha hb
    have hq1 : (1 : ℚ) ≤ interGap / interval := (one_le_div hintpos).mpr hge
    have hfl1 : (1 : ℤ) ≤ ⌊interGap / interval⌋ := by
      exact_mod_cast Int.le_floor.mpr (by exact_mod_cast hq1)
    have hg1 : 1 ≤ gapIntervals interGap interval := by
      unfold gapIntervals
      omega
    have hga : gapIntervals interGap interval ≤ a := by
      have hqa : interGap / interval ≤ (a : ℚ) := (div_le_iff₀ hintpos).mpr ha
      have : ⌊interGap / interval⌋ ≤ (a : ℤ) := by
        calc ⌊interGap / interval⌋ ≤ ⌊((a : ℕ) : ℚ)⌋ := Int.floor_le_floor hqa
          _ = (a : ℤ) := by exact_mod_cast Int.floor_natCast a
      unfold gapIntervals
      omega
    have hgb : gapIntervals interGap interval ≤ b := by
      have hqb : interGap / interval ≤ (b : ℚ) := (div_le_iff₀ hintpos).mpr hb
      have : ⌊interGap / interval⌋ ≤ (b : ℤ) := by
        calc ⌊interGap / interval⌋ ≤ ⌊((b : ℕ) : ℚ)⌋ := Int.floor_le_floor hqb
          _ = (b : ℤ) := by exact_mod_cast Int.floor_natCast b
      unfold gapIntervals
      omega
    set g := gapIntervals interGap interval with hgdef
    have hr : 1 ≤ run.length := List.length_pos.mpr hne
    simp only [identify_events, ← hgdef]
    have hpad : List.replicate g (0 : ℚ) ++
        (List.replicate a 0 ++ run ++ List.replicate b 0) ++
        List.replicate g 0
        = List.replicate (g + a) (0 : ℚ) ++ run ++
            List.replicate (b + g) (0 : ℚ) := by
      simp only [List.replicate_add, List.append_assoc]
    rw [hpad]
    set padded := List.replicate (g + a) (0 : ℚ) ++ run ++
      List.replicate (b + g) (0 : ℚ) with hpaddef
    have henum : padded.enum
        = List.enumFrom 0 (List.replicate (g + a) (0 : ℚ)) ++
            (List.enumFrom (g + a) run ++
              List.enumFrom (g + a + run.length)
                (List.replicate (b + g) (0 : ℚ))) := by
      show List.enumFrom 0 padded = _
      rw [hpaddef, List.append_assoc, List.enumFrom_append,
        List.enumFrom_append]
      simp
    rw [henum, List.foldl_append, List.foldl_append]
    rw [scan_zeros_of_not_inEvent padded g (g + a) 0 ⟨false, 0, 0, []⟩ rfl]
    rw [scan_pos_run padded g run hne hpos (g + a) _ rfl]
    rw [scan_zeros_close padded g (b + g) 0 (g + a + run.length) (g + a) []
      (by omega) (by omega) (by omega)]
    have hslice : eventSlice padded (g + a) (g + a + run.length - 1)
        = List.enumFrom (g + a) run := by
      have := eventSlice_append (List.replicate (g + a) (0 : ℚ)) run
        (List.replicate (b + g) (0 : ℚ)) hne hpos
      simpa [hpaddef] using this
    have hidx : g + a + run.length - 0 - 1 = g + a + run.length - 1 := by omega
    rw [hidx, hslice]
    have hcond : List.enumFrom (g + a) run ≠ [] ∧
        0 < ((List.enumFrom (g + a) run).map Prod.snd).sum := by
      constructor
      · intro hcon
        have hl := congrArg List.length hcon
        rw [List.enumFrom_length, List.length_nil] at hl
        omega
      · rw [List.enumFrom_map_snd]
        exact List.sum_pos run hpos hne
    rw [if_pos hcond]
    simp

/-- C6 witness: the all-zero two-sample series gives no event; the series
`[0,0,0,5,0,0,0]` at 10-minute intervals with a 30-minute inter-event gap
gives exactly the one event `[(6, 5)]` (position 6 in the padded series). -/
theorem C6_identify_events_spec_witness :
    identify_events (List.replicate 2 0) 10 30 = [] ∧
    identify_events (List.replicate 3 0 ++ [5] ++ List.replicate 3 0) 10 30
      = [List.enumFrom (gapIntervals 30 10 + 3) [5]] :=
  ⟨C6_identify_events_spec.1 2 10 30 (by norm_num),
   C6_identify_events_spec.2 3 3 [5] 10 30 (by simp) (by norm_num)
     (by norm_num) (by norm_num) (by norm_num) (by norm_num)⟩
